import Mathlib

/-!
A verification development for `Celc.py`, the reference compiler of the
"Code Execution Language" (CEL).  The Python source is shallowly embedded:
each pipeline stage (lexer, parser primitives, semantic pass, emitter)
becomes an executable Lean definition, and the specified properties are
proved about those definitions.
-/

namespace Celc

/-- Tokens produced by the lexer (the `Token` class).  `line` and `col`
are integers because the parser synthesizes an EOF token positioned at
`-1:-1`. -/
structure Token where
  type : String
  value : String
  line : Int
  col : Int
deriving DecidableEq, Repr

/-- A lexical error, `SyntaxError(f"Unexpected char {val!r} @ {line}:{col}")`:
the offending character together with the reported line and column. -/
structure LexErr where
  ch : Char
  line : Nat
  col : Int
deriving DecidableEq, Repr

/-- The 62 runs of consecutive code points that make up the Unicode
decimal-digit category Nd (Unicode character database 14.0.0), as
half-open `[start, stop)` ranges.  The first run, `0x30..0x39`, is the
ASCII digits `0-9`; every other run is another script's decimal digits
(Arabic-Indic `0x660..0x669`, Devanagari `0x966..0x96F`, ..., the
mathematical digit variants `0x1D7CE..0x1D7FF`). -/
def ndRanges : List (Nat × Nat) :=
  [(0x30, 0x3A), (0x660, 0x66A), (0x6F0, 0x6FA), (0x7C0, 0x7CA),
   (0x966, 0x970), (0x9E6, 0x9F0), (0xA66, 0xA70), (0xAE6, 0xAF0),
   (0xB66, 0xB70), (0xBE6, 0xBF0), (0xC66, 0xC70), (0xCE6, 0xCF0),
   (0xD66, 0xD70), (0xDE6, 0xDF0), (0xE50, 0xE5A), (0xED0, 0xEDA),
   (0xF20, 0xF2A), (0x1040, 0x104A), (0x1090, 0x109A), (0x17E0, 0x17EA),
   (0x1810, 0x181A), (0x1946, 0x1950), (0x19D0, 0x19DA), (0x1A80, 0x1A8A),
   (0x1A90, 0x1A9A), (0x1B50, 0x1B5A), (0x1BB0, 0x1BBA), (0x1C40, 0x1C4A),
   (0x1C50, 0x1C5A), (0xA620, 0xA62A), (0xA8D0, 0xA8DA), (0xA900, 0xA90A),
   (0xA9D0, 0xA9DA), (0xA9F0, 0xA9FA), (0xAA50, 0xAA5A), (0xABF0, 0xABFA),
   (0xFF10, 0xFF1A), (0x104A0, 0x104AA), (0x10D30, 0x10D3A),
   (0x11066, 0x11070), (0x110F0, 0x110FA), (0x11136, 0x11140),
   (0x111D0, 0x111DA), (0x112F0, 0x112FA), (0x11450, 0x1145A),
   (0x114D0, 0x114DA), (0x11650, 0x1165A), (0x116C0, 0x116CA),
   (0x11730, 0x1173A), (0x118E0, 0x118EA), (0x11950, 0x1195A),
   (0x11C50, 0x11C5A), (0x11D50, 0x11D5A), (0x11DA0, 0x11DAA),
   (0x16A60, 0x16A6A), (0x16AC0, 0x16ACA), (0x16B50, 0x16B5A),
   (0x1D7CE, 0x1D800), (0x1E140, 0x1E14A), (0x1E2F0, 0x1E2FA),
   (0x1E950, 0x1E95A), (0x1FBF0, 0x1FBFA)]

/-- The `\d` class of the NUMBER pattern.  `TOKEN_REGEX` is compiled from
str (not bytes) patterns and without `re.ASCII`, so `\d` matches every
Unicode decimal digit (category Nd), not only the ASCII `0-9`. -/
def isDigitC (c : Char) : Bool :=
  ndRanges.any (fun r => r.1 ≤ c.toNat && c.toNat < r.2)

/-- The leading-character class `[A-Za-z_]` of the IDENT pattern. -/
def isIdentStartC (c : Char) : Bool :=
  ('A' ≤ c && c ≤ 'Z') || ('a' ≤ c && c ≤ 'z') || c == '_'

/-- The explicit `0-9` range of the IDENT pattern's continuation class:
a literal code-point range (`'0'` is U+0030, `'9'` is U+0039), so ASCII
only — unlike the NUMBER pattern's `\d`. -/
def isAsciiDigitC (c : Char) : Bool := 0x30 ≤ c.toNat && c.toNat ≤ 0x39

/-- The continuation class `[A-Za-z0-9_]` of the IDENT pattern. -/
def isIdentContC (c : Char) : Bool := isIdentStartC c || isAsciiDigitC c

/-- The single-character punctuation alternatives LBRACE .. COMMA. -/
def punctTy (c : Char) : Option String :=
  if c == '{' then some "LBRACE"
  else if c == '}' then some "RBRACE"
  else if c == '[' then some "LBRACKET"
  else if c == ']' then some "RBRACKET"
  else if c == ':' then some "COLON"
  else if c == ';' then some "SEMI"
  else if c == ',' then some "COMMA"
  else none

/-- The SKIP class `[\t\r ]`. -/
def isSkipC (c : Char) : Bool := c == '\t' || c == '\r' || c == ' '

/-- The MISMATCH alternative: a character matched by none of the other
token patterns (the regex `.` cannot match a newline, which the NEWLINE
alternative handles). -/
def mismatchC (c : Char) : Bool :=
  !isDigitC c && !isIdentStartC c && (punctTy c).isNone && !(c == '\n') && !isSkipC c

/-- One match of `TOKEN_REGEX` at the head of the input: the first
alternative that applies, with its own maximal (greedy) extent. -/
inductive Chunk where
  | tok (ty : String) (chars : List Char)
  | nl (k : Nat)
  | skip (k : Nat)
  | bad (c : Char)
deriving DecidableEq, Repr

def scan1 (c : Char) (rest : List Char) : Chunk × List Char :=
  if isDigitC c then
    (.tok "NUMBER" (c :: rest.takeWhile isDigitC), rest.dropWhile isDigitC)
  else if isIdentStartC c then
    (.tok "IDENT" (c :: rest.takeWhile isIdentContC), rest.dropWhile isIdentContC)
  else
    match punctTy c with
    | some ty => (.tok ty [c], rest)
    | none =>
      if c == '\n' then
        (.nl (1 + (rest.takeWhile (· == '\n')).length), rest.dropWhile (· == '\n'))
      else if isSkipC c then
        (.skip (1 + (rest.takeWhile isSkipC).length), rest.dropWhile isSkipC)
      else (.bad c, rest)

/-- The loop body of `lex`: walks the source tracking the absolute
position `pos`, the current `line`, and `ls` (`line_start`, the position
just past the most recent newline run).  Mirrors the Python loop: a
NEWLINE run adds `val.count("\n")` to `line` and resets `line_start`; a
SKIP run is discarded; a MISMATCH character stops the scan with an error
at column `pos - line_start + 1`.  The fuel argument only bounds the
recursion; `lex` always supplies enough for the whole input. -/
def lexAux : Nat → List Char → Nat → Nat → Nat → List Token × Option LexErr
  | 0, _, _, _, _ => ([], none)
  | _ + 1, [], _, _, _ => ([], none)
  | f + 1, c :: rest, pos, line, ls =>
    match scan1 c rest with
    | (.tok ty chars, rest2) =>
      let t : Token := ⟨ty, String.mk chars, (line : Int), (pos : Int) - (ls : Int) + 1⟩
      let r := lexAux f rest2 (pos + chars.length) line ls
      (t :: r.1, r.2)
    | (.nl k, rest2) => lexAux f rest2 (pos + k) (line + k) (pos + k)
    | (.skip k, rest2) => lexAux f rest2 (pos + k) line ls
    | (.bad b, _) => ([], some ⟨b, line, (pos : Int) - (ls : Int) + 1⟩)

/-- `lex`: the tokens yielded before any lexical error, paired with the
error if one occurred (the Python generator yields tokens until it
raises). -/
def lex (src : String) : List Token × Option LexErr :=
  lexAux (src.toList.length + 1) src.toList 0 1 0

/-- A statement argument: an integer literal (a NUMBER token converted
with `int`) or an identifier. -/
inductive Arg where
  | num (n : Int)
  | ident (s : String)
deriving DecidableEq, Repr

structure Statement where
  dest : String
  op : String
  args : List Arg
deriving DecidableEq, Repr

structure Block where
  gate : String
  statements : List Statement
deriving DecidableEq, Repr

structure Program where
  blocks : List Block
deriving DecidableEq, Repr

/-- Parser state: the token list and the cursor `i`. -/
structure PState where
  toks : List Token
  i : Nat
deriving DecidableEq, Repr

/-- `Parser.peek` (at the default offset `0`, the only offset `accept`
and `expect` use): the current token, or a synthetic EOF token. -/
def peekP (ps : PState) : Token := ps.toks.getD ps.i ⟨"EOF", "", -1, -1⟩

/-- `Parser.accept`: consume the current token if its kind is listed. -/
def acceptP (types : List String) (ps : PState) : Option (Token × PState) :=
  if (peekP ps).type ∈ types then some (peekP ps, ⟨ps.toks, ps.i + 1⟩) else none

/-- Python's `sep.join(xs)`. -/
def pyJoin (sep : String) : List String → String
  | [] => ""
  | [x] => x
  | x :: y :: xs => x ++ sep ++ pyJoin sep (y :: xs)

/-- The `ParseError` message `f"Expected {exp} at {p.line}:{p.col}"`
where `exp = "/".join(types)`. -/
def expectMsg (types : List String) (tok : Token) : String :=
  "Expected " ++ (pyJoin "/" types ++ (" at " ++ (toString tok.line ++ (":" ++ toString tok.col))))

/-- `Parser.expect`: consume a token of one of the given kinds, or raise
a `ParseError` built from the expected kinds and the peeked token. -/
def expectP (types : List String) (ps : PState) : Except String (Token × PState) :=
  match acceptP types ps with
  | some r => .ok r
  | none => .error (expectMsg types (peekP ps))

/-- The fixed arity table `OPS_ARITY`. -/
def OPS_ARITY : List (String × Nat) :=
  [("SET", 1), ("ADD", 1), ("SUB", 1), ("MUL", 1), ("DIV", 1), ("NOT", 1),
   ("DISPLAY", 1),
   ("COMPARE", 2), ("AND", 2), ("OR", 2), ("XOR", 2),
   ("SHIFT_LEFT", 2), ("SHIFT_RIGHT", 2), ("JUMP_IF", 2), ("LOOP", 3)]

/-- Message of the unknown-opcode `SemanticError`:
`f"Unknown op {st.op} in gate [{blk.gate}]"`. -/
def unknownOpMsg (op gate : String) : String :=
  "Unknown op " ++ (op ++ (" in gate [" ++ (gate ++ "]")))

/-- Message of the arity-mismatch `SemanticError`:
`f"{st.op} expects {exp} arg(s), got {len(st.args)}"`. -/
def arityMsg (op : String) (exp got : Nat) : String :=
  op ++ (" expects " ++ (toString exp ++ (" arg(s), got " ++ toString got)))

/-- `add(a)` for every string argument (set insertion). -/
def argSyms (acc : List String) (a : Arg) : List String :=
  match a with
  | .num _ => acc
  | .ident s => acc.insert s

/-- The statement loop of `semantic`: check each statement against the
arity table, then add the destination and every identifier argument to
the symbol set.  The accumulator is a duplicate-free list standing for
the Python `set`. -/
def semStmts (gate : String) : List Statement → List String → Except String (List String)
  | [], acc => .ok acc
  | st :: rest, acc =>
    match OPS_ARITY.lookup st.op with
    | none => .error (unknownOpMsg st.op gate)
    | some exp =>
      if st.args.length ≠ exp then .error (arityMsg st.op exp st.args.length)
      else semStmts gate rest (st.args.foldl argSyms (acc.insert st.dest))

def semBlocks : List Block → List String → Except String (List String)
  | [], acc => .ok acc
  | blk :: rest, acc =>
    match semStmts blk.gate blk.statements acc with
    | .error e => .error e
    | .ok acc2 => semBlocks rest acc2

/-- CPython string comparison (lexicographic by code point), as an
executable comparator on the underlying character lists: `charsLt as bs`
decides `as < bs`. -/
def charsLt : List Char → List Char → Bool
  | [], [] => false
  | [], _ :: _ => true
  | _ :: _, [] => false
  | a :: as, b :: bs => if a < b then true else if b < a then false else charsLt as bs

/-- `a <= b` on Python strings; `sorted` arranges its output by this
relation (proved below to agree with the Lean order on `String`). -/
def strLeB (a b : String) : Bool := !charsLt b.data a.data

/-- `semantic`: validate every statement and return `sorted(symbols)`. -/
def semantic (root : Program) : Except String (List String) :=
  (semBlocks root.blocks []).map (List.insertionSort (fun a b => strLeB a b = true))

/-- `val(arg)`: a literal as itself, an identifier as a `[name]` memory
operand. -/
def val : Arg → String
  | .num n => toString n
  | .ident s => "[" ++ s ++ "]"

/-- A Python f-string rendering of a raw argument value. -/
def pyStr : Arg → String
  | .num n => toString n
  | .ident s => s

/-- `a1 = val(a[0]) if a else None`, as it renders inside an f-string. -/
def a1Str : List Arg → String
  | [] => "None"
  | a :: _ => val a

/-- `a2 = val(a[1]) if len(a) > 1 else None`, rendered likewise. -/
def a2Str : List Arg → String
  | _ :: b :: _ => val b
  | _ => "None"

/-- `op.lower()` for the bitwise mnemonic. -/
def lowerStr (s : String) : String := s.map Char.toLower

/-- `dst = f"[{d}]"`: the destination's memory operand. -/
def dstOf (d : String) : String := "[" ++ d ++ "]"

/-- `start = f".Lloop{lbl}"`: the LOOP start label. -/
def loopStartLbl (lbl : Nat) : String := ".Lloop" ++ toString lbl

/-- `end = f".Lend{lbl}"`: the LOOP end label. -/
def loopEndLbl (lbl : Nat) : String := ".Lend" ++ toString lbl

/-- `emit_stmt`: the instruction group for one statement, threading the
loop-label counter.  `none` models the Python runtime faults on inputs
validation would have rejected: `NotImplementedError` for an opcode
outside the dispatch chain, `IndexError` for `JUMP_IF` with fewer than
two arguments, and the unpacking error for `LOOP` without exactly three
arguments. -/
def emit_stmt (st : Statement) (lbl : Nat) : Option (String × Nat) :=
  if st.op = "SET" then
    some ("    mov     " ++ dstOf st.dest ++ ", " ++ a1Str st.args ++ "\n", lbl)
  else if st.op = "ADD" then
    some ("    add     " ++ dstOf st.dest ++ ", " ++ a1Str st.args ++ "\n", lbl)
  else if st.op = "SUB" then
    some ("    sub     " ++ dstOf st.dest ++ ", " ++ a1Str st.args ++ "\n", lbl)
  else if st.op = "MUL" then
    some ("    mov     rax, " ++ dstOf st.dest ++ "\n    imul    rax, " ++ a1Str st.args
      ++ "\n    mov     " ++ dstOf st.dest ++ ", rax\n", lbl)
  else if st.op = "DIV" then
    some ("    xor     rdx, rdx\n    mov     rax, " ++ dstOf st.dest ++ "\n    div     "
      ++ a1Str st.args ++ "\n    mov     " ++ dstOf st.dest ++ ", rax\n", lbl)
  else if st.op = "AND" ∨ st.op = "OR" ∨ st.op = "XOR" then
    some ("    mov     rax, " ++ a1Str st.args ++ "\n    " ++ lowerStr st.op ++ "     rax, "
      ++ a2Str st.args ++ "\n    mov     " ++ dstOf st.dest ++ ", rax\n", lbl)
  else if st.op = "NOT" then
    some ("    mov     rax, " ++ a1Str st.args ++ "\n    not     rax\n    mov     "
      ++ dstOf st.dest ++ ", rax\n", lbl)
  else if st.op = "SHIFT_LEFT" then
    some ("    mov     rax, " ++ a1Str st.args ++ "\n    shl     rax, " ++ a2Str st.args
      ++ "\n    mov     " ++ dstOf st.dest ++ ", rax\n", lbl)
  else if st.op = "SHIFT_RIGHT" then
    some ("    mov     rax, " ++ a1Str st.args ++ "\n    shr     rax, " ++ a2Str st.args
      ++ "\n    mov     " ++ dstOf st.dest ++ ", rax\n", lbl)
  else if st.op = "COMPARE" then
    some ("    mov     rax, " ++ a1Str st.args ++ "\n    cmp     rax, " ++ a2Str st.args
      ++ "\n", lbl)
  else if st.op = "JUMP_IF" then
    match st.args[1]? with
    | none => none
    | some tg => some ("    jne     " ++ pyStr tg ++ "    ; JUMP_IF\n", lbl)
  else if st.op = "DISPLAY" then
    some ("    mov     rcx, fmt_dec\n    mov     rdx, " ++ a1Str st.args
      ++ "\n    xor     rax, rax\n    call    printf\n", lbl)
  else if st.op = "LOOP" then
    match st.args with
    | [ctr, step, acc] =>
      some ("    mov     rax, [" ++ pyStr ctr ++ "]\n" ++ loopStartLbl lbl
        ++ ":\n    cmp     rax, 0\n    je      " ++ loopEndLbl lbl
        ++ "\n    add     [" ++ pyStr acc ++ "], " ++ val step
        ++ "\n    dec     rax\n    jmp     " ++ loopStartLbl lbl ++ "\n" ++ loopEndLbl lbl
        ++ ":\n    mov     [" ++ pyStr ctr ++ "], rax\n", lbl + 1)
    | _ => none
  else none

/-- One `.bss` declaration: `f"    {s:16} resq 1\n"` (the name
left-justified to a minimum width of 16). -/
def pad16 (s : String) : String := s ++ String.mk (List.replicate (16 - s.length) ' ')

def bssLine (s : String) : String := "    " ++ pad16 s ++ " resq 1\n"

/-- The `.bss` loop of `emit`: one declaration line per symbol, in
symbol-list order. -/
def bssSection : List String → String
  | [] => ""
  | s :: rest => bssLine s ++ bssSection rest

/-- The statement loop inside `emit`, threading the label counter. -/
def emitStmts : List Statement → Nat → Option (String × Nat)
  | [], lbl => some ("", lbl)
  | st :: rest, lbl =>
    match emit_stmt st lbl with
    | none => none
    | some (t, lbl2) =>
      match emitStmts rest lbl2 with
      | none => none
      | some (t2, lbl3) => some (t ++ t2, lbl3)

/-- The block loop inside `emit`: a gate comment marker, then the
statements. -/
def emitBlocks : List Block → Nat → Option (String × Nat)
  | [], lbl => some ("", lbl)
  | blk :: rest, lbl =>
    match emitStmts blk.statements lbl with
    | none => none
    | some (t, lbl2) =>
      match emitBlocks rest lbl2 with
      | none => none
      | some (t2, lbl3) => some ("    ; --- Gate [" ++ blk.gate ++ "] ---\n" ++ t ++ t2, lbl3)

/-- The fixed text written before the `.bss` declarations. -/
def emitHead : String :=
  "; generated by celc.py\nsection .data\n    fmt_dec db \"%lld\", 10, 0\nsection .bss\n"

/-- The fixed text between the `.bss` declarations and the first gate. -/
def emitTextPre : String := "section .text\n    extern printf\n    global main\n\nmain:\n"

/-- The fixed epilogue. -/
def emitTail : String := "    xor     rax, rax\n    ret\n"

/-- `emit`: the whole generated file as one string.  The label counter
`lbl` starts at `0` on every call. -/
def emit (root : Program) (syms : List String) : Option String :=
  match emitBlocks root.blocks 0 with
  | none => none
  | some (body, _) => some (emitHead ++ bssSection syms ++ emitTextPre ++ body ++ emitTail)

/-- Error classification for the `main` pipeline. -/
inductive CompileErr where
  | sem (msg : String)
  | emitFault
deriving DecidableEq, Repr

/-- The `main` pipeline from the parsed AST onward:
`symbols = semantic(ast)` runs to completion strictly before
`emit(ast, symbols, ...)` is invoked. -/
def compileAst (ast : Program) : Except CompileErr String :=
  match semantic ast with
  | .error e => .error (.sem e)
  | .ok syms =>
    match emit ast syms with
    | none => .error .emitFault
    | some t => .ok t

/-! ### Specification-side helper definitions -/

/-- Number of newline characters in a piece of source text. -/
def nlCount (l : List Char) : Nat := l.countP (· == '\n')

/-- The position just past the last newline of `l`, scanning `l` from
absolute position `pos` with current line-start value `ls`. -/
def lsAfter : List Char → Nat → Nat → Nat
  | [], _, ls => ls
  | c :: rest, pos, ls => lsAfter rest (pos + 1) (if c == '\n' then pos + 1 else ls)

/-- Index of the first character matched by no token pattern. -/
def firstBad : List Char → Option Nat
  | [] => none
  | c :: rest => if mismatchC c then some 0 else (firstBad rest).map (· + 1)

/-- The identifiers one statement mentions as its destination or as an
identifier (non-literal) argument. -/
def stmtSyms (st : Statement) : List String :=
  st.dest :: st.args.filterMap (fun a => match a with | .num _ => none | .ident s => some s)

/-- The set of distinct identifiers appearing anywhere in the program as
a statement destination or as an identifier argument. -/
def specSymbols (p : Program) : Finset String :=
  (p.blocks.flatMap (fun blk => blk.statements.flatMap stmtSyms)).toFinset

/-- All statements of a program, in emission order. -/
def progStmts (p : Program) : List Statement := p.blocks.flatMap (·.statements)

/-- How many LOOP statements a statement list contains. -/
def loopCount (sts : List Statement) : Nat := (sts.filter (fun st => st.op == "LOOP")).length

/-- The label-counter values consumed by LOOP lowerings, read off the
emitter itself: a statement records the incoming counter value exactly
when `emit_stmt` advances the counter. -/
def loopSuffixes : List Statement → Nat → List Nat
  | [], _ => []
  | st :: rest, lbl =>
    match emit_stmt st lbl with
    | none => []
    | some (_, lbl2) => (if lbl2 = lbl then [] else [lbl]) ++ loopSuffixes rest lbl2

/-- The program contains a statement whose opcode is not in the arity
table. -/
def hasUnknownOp (p : Program) : Prop :=
  ∃ blk ∈ p.blocks, ∃ st ∈ blk.statements, OPS_ARITY.lookup st.op = none

/-- A one-gate, one-statement program. -/
def prog1 (g d op : String) (args : List Arg) : Program := ⟨[⟨g, [⟨d, op, args⟩]⟩]⟩

/-- The specification's running example
`[start]{ x : SET 5; y : SET 0; y : ADD x; }`, as an AST. -/
def exampleProg : Program :=
  ⟨[⟨"start", [⟨"x", "SET", [Arg.num 5]⟩, ⟨"y", "SET", [Arg.num 0]⟩,
    ⟨"y", "ADD", [Arg.ident "x"]⟩]⟩]⟩

/-- The specification's COMPARE/JUMP_IF example, as an AST. -/
def exampleJump : Program :=
  ⟨[⟨"g0", [⟨"a", "COMPARE", [Arg.ident "b", Arg.ident "c"]⟩,
    ⟨"a", "JUMP_IF", [Arg.ident "b", Arg.ident "loopgate"]⟩]⟩]⟩

/-- A program with two LOOP statements separated by a SET. -/
def exampleLoops : Program :=
  ⟨[⟨"g", [⟨"l1", "LOOP", [Arg.ident "c", Arg.num 1, Arg.ident "acc"]⟩,
    ⟨"x", "SET", [Arg.num 5]⟩,
    ⟨"l2", "LOOP", [Arg.ident "c", Arg.num 2, Arg.ident "acc"]⟩]⟩]⟩

/-- The instruction group `emit_stmt` produces for a DISPLAY statement:
load the fixed decimal format, load the argument, call `printf`. -/
def displayText (a : Arg) : String :=
  "    mov     rcx, fmt_dec\n    mov     rdx, " ++ val a
    ++ "\n    xor     rax, rax\n    call    printf\n"

/-! ### The Python string order agrees with the Lean order on `String` -/

lemma charsLt_iff : ∀ as bs : List Char, charsLt as bs = true ↔ List.Lex (· < ·) as bs := by
  intro as
  induction as with
  | nil =>
    intro bs
    cases bs with
    | nil =>
      constructor
      · intro h; exact nomatch h
      · intro h; cases h
    | cons b bs =>
      constructor
      · intro _; exact List.Lex.nil
      · intro _; rfl
  | cons a as ih =>
    intro bs
    cases bs with
    | nil =>
      constructor
      · intro h; exact nomatch h
      · intro h; cases h
    | cons b bs =>
      simp only [charsLt]
      rcases lt_trichotomy a b with hab | heq | hba
      · simp only [if_pos hab]
        constructor
        · intro _; exact List.Lex.rel hab
        · intro _; trivial
      · subst heq
        simp only [if_neg (lt_irrefl a)]
        rw [ih bs]
        constructor
        · intro h; exact List.Lex.cons h
        · intro h
          cases h with
          | cons h => exact h
          | rel h => exact absurd h (lt_irrefl a)
      · simp only [if_neg (lt_asymm hba), if_pos hba]
        constructor
        · intro h; exact nomatch h
        · intro h
          cases h with
          | cons _ => exact absurd hba (lt_irrefl a)
          | rel h => exact absurd h (lt_asymm hba)

lemma strLeB_iff (a b : String) : strLeB a b = true ↔ a ≤ b := by
  have h1 : (b.toList < a.toList) ↔ charsLt b.data a.data = true := by
    rw [show (b.toList < a.toList) = List.Lex (· < ·) b.data a.data from rfl]
    exact (charsLt_iff _ _).symm
  rw [String.le_iff_toList_le, ← not_lt, h1, strLeB]
  cases charsLt b.data a.data <;> simp

instance : IsTotal String (fun a b => strLeB a b = true) :=
  ⟨fun a b => by rw [strLeB_iff, strLeB_iff]; exact le_total a b⟩

instance : IsTrans String (fun a b => strLeB a b = true) :=
  ⟨fun a b c hab hbc => by
    rw [strLeB_iff] at hab hbc ⊢
    exact le_trans hab hbc⟩

/-! ### C4: JUMP_IF depends only on its second argument -/

/-- Claim C4: for every JUMP_IF statement, the emitted instruction group
is a conditional transfer (`jne`) to the gate named by the second
argument, and it depends neither on the destination identifier nor on
the first argument: two JUMP_IF statements agreeing on the second
argument but differing in destination or first argument emit identical
text (and leave the label counter unchanged). -/
theorem c4_jump_if_only_second_arg :
    (∀ (d : String) (a1 : Arg) (g : String) (lbl : Nat),
        emit_stmt ⟨d, "JUMP_IF", [a1, Arg.ident g]⟩ lbl
          = some ("    jne     " ++ g ++ "    ; JUMP_IF\n", lbl))
    ∧ (∀ (d d2 : String) (a1 a1b a2 : Arg) (lbl : Nat),
        emit_stmt ⟨d, "JUMP_IF", [a1, a2]⟩ lbl = emit_stmt ⟨d2, "JUMP_IF", [a1b, a2]⟩ lbl) := by
  constructor
  · intro d a1 g lbl; rfl
  · intro d d2 a1 a1b a2 lbl; rfl

/-! ### C5: DISPLAY has arity 1 and writes no storage cell -/

set_option maxRecDepth 20000 in
/-- Claim C5: the validator accepts a DISPLAY statement exactly when it
has one argument; the emitted instruction group is the fixed `printf`
output call on the decimal format; the group is entirely independent of
the destination identifier; and (for the specification's concrete
example `d : DISPLAY 42`) the destination's storage cell `[d]` does not
occur in the group at all. -/
theorem c5_display_output_only :
    (∀ (g d : String) (args : List Arg),
        (∃ syms, semantic (prog1 g d "DISPLAY" args) = .ok syms) ↔ args.length = 1)
    ∧ (∀ (d : String) (a : Arg) (lbl : Nat),
        emit_stmt ⟨d, "DISPLAY", [a]⟩ lbl = some (displayText a, lbl))
    ∧ (∀ (d d2 : String) (a : Arg) (lbl : Nat),
        emit_stmt ⟨d, "DISPLAY", [a]⟩ lbl = emit_stmt ⟨d2, "DISPLAY", [a]⟩ lbl)
    ∧ ¬ ("[d]".data <:+: (displayText (Arg.num 42)).data) := by
  refine ⟨?_, ?_, ?_, ?_⟩
  · intro g d args
    constructor
    · rintro ⟨syms, hs⟩
      by_contra hne
      simp [semantic, prog1, semBlocks, semStmts, List.lookup, OPS_ARITY, hne, Except.map] at hs
    · intro h
      refine ⟨List.insertionSort (fun a b => strLeB a b = true) (args.foldl argSyms [d]), ?_⟩
      simp [semantic, prog1, semBlocks, semStmts, List.lookup, OPS_ARITY, h, Except.map]
  · intro d a lbl; rfl
  · intro d d2 a lbl; rfl
  · decide

/-! ### C2: the arity check -/

/-- Claim C2: for every statement whose opcode is in the fixed arity
table, the validator raises a semantic error naming that opcode exactly
when the argument count differs from the declared arity; with the
correct count the statement passes validation. -/
theorem c2_arity_check (g d op : String) (args : List Arg) (exp : Nat)
    (hop : OPS_ARITY.lookup op = some exp) :
    (args.length ≠ exp →
        semantic (prog1 g d op args) = .error (arityMsg op exp args.length)
          ∧ op.data <+: (arityMsg op exp args.length).data)
    ∧ (args.length = exp → ∃ syms, semantic (prog1 g d op args) = .ok syms) := by
  constructor
  · intro hne
    refine ⟨?_, ?_⟩
    · simp [semantic, prog1, semBlocks, semStmts, hop, hne, Except.map]
    · exact ⟨(" expects " ++ (toString exp ++ (" arg(s), got " ++ toString args.length))).data,
        (String.data_append _ _).symm⟩
  · intro heq
    refine ⟨List.insertionSort (fun a b => strLeB a b = true) (args.foldl argSyms [d]), ?_⟩
    simp [semantic, prog1, semBlocks, semStmts, hop, heq, Except.map]

/-- Witness for C2 at a concrete input: `SET` has declared arity 1, and
a `SET` statement with two arguments is rejected with an error naming
`SET` while one with one argument is accepted. -/
theorem c2_arity_check_witness :
    (OPS_ARITY.lookup "SET" = some 1)
    ∧ (((2 : Nat) ≠ 1 →
          semantic (prog1 "g" "x" "SET" [Arg.num 2, Arg.num 3]) = .error (arityMsg "SET" 1 2)
            ∧ "SET".data <+: (arityMsg "SET" 1 2).data)
        ∧ ((2 : Nat) = 1 → ∃ syms, semantic (prog1 "g" "x" "SET" [Arg.num 2, Arg.num 3]) = .ok syms)) :=
  ⟨rfl, c2_arity_check "g" "x" "SET" [Arg.num 2, Arg.num 3] 1 rfl⟩

/-! ### C7: contents of a parse error -/

lemma pyJoin_mem_contains (sep t : String) :
    ∀ xs : List String, t ∈ xs → t.data <:+: (pyJoin sep xs).data := by
  intro xs
  induction xs with
  | nil => intro h; exact absurd h (List.not_mem_nil t)
  | cons x xs ih =>
    intro h
    cases xs with
    | nil =>
      have ht : t = x := by simpa using h
      subst ht
      exact ⟨[], [], by simp [pyJoin]⟩
    | cons y ys =>
      rcases List.mem_cons.mp h with ht | hmem
      · subst ht
        exact ⟨[], (sep ++ pyJoin sep (y :: ys)).data, by
          simp [pyJoin, String.data_append, List.append_assoc]⟩
      · obtain ⟨s, u, hsu⟩ := ih hmem
        refine ⟨(x ++ sep).data ++ s, u, ?_⟩
        rw [show pyJoin sep (x :: y :: ys) = (x ++ sep) ++ pyJoin sep (y :: ys) from rfl]
        simp only [String.data_append]
        rw [← hsu]
        simp [List.append_assoc]

/-- Claim C7 (corrected): every parse error raised by `expect` carries
the expected kind(s) (joined with `/`) and the peeked token's
line/column position — but, contrary to the original claim, it does not
carry the actual offending token (see `c7_counterexample`). -/
theorem c7_parse_error_payload (types : List String) (ps : PState) (t : String)
    (hmem : t ∈ types) (hfail : (peekP ps).type ∉ types) :
    expectP types ps = .error (expectMsg types (peekP ps))
    ∧ t.data <:+: (expectMsg types (peekP ps)).data
    ∧ (toString (peekP ps).line ++ (":" ++ toString (peekP ps).col)).data
        <:+: (expectMsg types (peekP ps)).data := by
  refine ⟨?_, ?_, ?_⟩
  · simp [expectP, acceptP, hfail]
  · obtain ⟨s, u, hsu⟩ := pyJoin_mem_contains "/" t types hmem
    refine ⟨"Expected ".data ++ s,
      u ++ (" at " ++ (toString (peekP ps).line ++ (":" ++ toString (peekP ps).col))).data, ?_⟩
    rw [expectMsg]
    simp only [String.data_append]
    rw [← hsu]
    simp [List.append_assoc]
  · refine ⟨("Expected " ++ pyJoin "/" types ++ " at ").data, [], ?_⟩
    simp [expectMsg, String.data_append, List.append_assoc]

set_option maxRecDepth 20000 in
/-- Counterexample to claim C7 as stated: when `expect IDENT` fails on
the token `NUMBER "5"` at 1:3, the raised parse error message carries
neither the offending token's kind nor its text. -/
theorem c7_counterexample :
    expectP ["IDENT"] ⟨[⟨"NUMBER", "5", 1, 3⟩], 0⟩ = .error "Expected IDENT at 1:3"
    ∧ ¬ ("5".data <:+: ("Expected IDENT at 1:3").data)
    ∧ ¬ ("NUMBER".data <:+: ("Expected IDENT at 1:3").data) := by
  refine ⟨rfl, by decide, by decide⟩

set_option maxRecDepth 20000 in
/-- Witness for C7 at a concrete input: the failing `expect IDENT` call
on a `NUMBER` token reports the expected kind and the position. -/
theorem c7_parse_error_payload_witness :
    ("IDENT" ∈ ["IDENT"] ∧ (peekP ⟨[⟨"NUMBER", "5", 1, 3⟩], 0⟩).type ∉ ["IDENT"])
    ∧ (expectP ["IDENT"] ⟨[⟨"NUMBER", "5", 1, 3⟩], 0⟩
          = .error (expectMsg ["IDENT"] (peekP ⟨[⟨"NUMBER", "5", 1, 3⟩], 0⟩))
        ∧ "IDENT".data <:+: (expectMsg ["IDENT"] (peekP ⟨[⟨"NUMBER", "5", 1, 3⟩], 0⟩)).data
        ∧ (toString (peekP ⟨[⟨"NUMBER", "5", 1, 3⟩], 0⟩).line
            ++ (":" ++ toString (peekP ⟨[⟨"NUMBER", "5", 1, 3⟩], 0⟩).col)).data
              <:+: (expectMsg ["IDENT"] (peekP ⟨[⟨"NUMBER", "5", 1, 3⟩], 0⟩)).data) :=
  ⟨⟨by decide, by decide⟩,
    c7_parse_error_payload ["IDENT"] ⟨[⟨"NUMBER", "5", 1, 3⟩], 0⟩ "IDENT" (by decide)
      (by decide)⟩

/-! ### C8: contents of a semantic error -/

lemma semStmts_error_payload (g : String) :
    ∀ (sts : List Statement) (acc : List String) (e : String),
      semStmts g sts acc = .error e →
      ∃ st ∈ sts,
        (OPS_ARITY.lookup st.op = none ∧ e = unknownOpMsg st.op g)
        ∨ (∃ exp, OPS_ARITY.lookup st.op = some exp ∧ st.args.length ≠ exp
            ∧ e = arityMsg st.op exp st.args.length) := by
  intro sts
  induction sts with
  | nil => intro acc e h; exact absurd h (by simp [semStmts])
  | cons st rest ih =>
    intro acc e h
    rw [semStmts] at h
    cases hlk : OPS_ARITY.lookup st.op with
    | none =>
      simp only [hlk] at h
      refine ⟨st, List.mem_cons_self st rest, Or.inl ⟨hlk, ?_⟩⟩
      exact (Except.error.inj h).symm
    | some exp =>
      simp only [hlk] at h
      by_cases harg : st.args.length ≠ exp
      · rw [if_pos harg] at h
        exact ⟨st, List.mem_cons_self st rest, Or.inr ⟨exp, hlk, harg, (Except.error.inj h).symm⟩⟩
      · rw [if_neg harg] at h
        obtain ⟨st2, hmem, hcase⟩ := ih _ e h
        exact ⟨st2, List.mem_cons_of_mem st hmem, hcase⟩

lemma semBlocks_error_payload :
    ∀ (bs : List Block) (acc : List String) (e : String),
      semBlocks bs acc = .error e →
      ∃ blk ∈ bs, ∃ st ∈ blk.statements,
        (OPS_ARITY.lookup st.op = none ∧ e = unknownOpMsg st.op blk.gate)
        ∨ (∃ exp, OPS_ARITY.lookup st.op = some exp ∧ st.args.length ≠ exp
            ∧ e = arityMsg st.op exp st.args.length) := by
  intro bs
  induction bs with
  | nil => intro acc e h; exact absurd h (by simp [semBlocks])
  | cons blk rest ih =>
    intro acc e h
    rw [semBlocks] at h
    cases hsb : semStmts blk.gate blk.statements acc with
    | error e0 =>
      rw [hsb] at h
      have he : e0 = e := Except.error.inj h
      subst he
      obtain ⟨st, hmem, hcase⟩ := semStmts_error_payload blk.gate blk.statements acc e0 hsb
      exact ⟨blk, List.mem_cons_self blk rest, st, hmem, hcase⟩
    | ok acc2 =>
      rw [hsb] at h
      obtain ⟨blk2, hb, st, hmem, hcase⟩ := ih acc2 e h
      exact ⟨blk2, List.mem_cons_of_mem blk hb, st, hmem, hcase⟩

lemma semantic_error_iff (p : Program) (e : String) :
    semantic p = .error e ↔ semBlocks p.blocks [] = .error e := by
  rw [semantic]
  cases semBlocks p.blocks [] <;> simp [Except.map]

/-- Claim C8 (corrected): every semantic error is either an
unknown-opcode error — whose message carries both the offending opcode
and the enclosing gate — or an arity-mismatch error, whose message
carries the opcode together with the expected and actual argument
counts but, contrary to the original claim, not the enclosing gate
(see `c8_counterexample`). -/
theorem c8_semantic_error_payload (p : Program) (e : String) (h : semantic p = .error e) :
    ∃ blk ∈ p.blocks, ∃ st ∈ blk.statements,
      (OPS_ARITY.lookup st.op = none ∧ e = unknownOpMsg st.op blk.gate
        ∧ st.op.data <:+: e.data ∧ blk.gate.data <:+: e.data)
      ∨ (∃ exp, OPS_ARITY.lookup st.op = some exp ∧ st.args.length ≠ exp
          ∧ e = arityMsg st.op exp st.args.length ∧ st.op.data <+: e.data) := by
  obtain ⟨blk, hb, st, hmem, hcase⟩ :=
    semBlocks_error_payload p.blocks [] e ((semantic_error_iff p e).mp h)
  refine ⟨blk, hb, st, hmem, ?_⟩
  rcases hcase with ⟨hlk, he⟩ | ⟨exp, hlk, harg, he⟩
  · subst he
    refine Or.inl ⟨hlk, rfl, ?_, ?_⟩
    · exact ⟨"Unknown op ".data, (" in gate [" ++ (blk.gate ++ "]")).data, by
        simp [unknownOpMsg, String.data_append, List.append_assoc]⟩
    · exact ⟨"Unknown op ".data ++ st.op.data ++ " in gate [".data, "]".data, by
        simp [unknownOpMsg, String.data_append, List.append_assoc]⟩
  · subst he
    exact Or.inr ⟨exp, hlk, harg,  rfl,
      ⟨(" expects " ++ (toString exp ++ (" arg(s), got " ++ toString st.args.length))).data,
        (String.data_append _ _).symm⟩⟩

set_option maxRecDepth 20000 in
/-- Counterexample to claim C8 as stated: the arity-mismatch semantic
error for a bad `SET` statement inside gate `mygate` does not mention
the enclosing gate anywhere in its message. -/
theorem c8_counterexample :
    semantic (prog1 "mygate" "x" "SET" [Arg.num 1, Arg.num 2]) = .error (arityMsg "SET" 1 2)
    ∧ ¬ ("mygate".data <:+: (arityMsg "SET" 1 2).data) := by
  refine ⟨rfl, by decide⟩

/-- Witness for C8 at a concrete input: an unknown-opcode program whose
semantic error carries both the opcode and the gate. -/
theorem c8_semantic_error_payload_witness :
    semantic (prog1 "mygate" "x" "FROB" []) = .error (unknownOpMsg "FROB" "mygate")
    ∧ ∃ blk ∈ (prog1 "mygate" "x" "FROB" []).blocks, ∃ st ∈ blk.statements,
        (OPS_ARITY.lookup st.op = none ∧ unknownOpMsg "FROB" "mygate" = unknownOpMsg st.op blk.gate
          ∧ st.op.data <:+: (unknownOpMsg "FROB" "mygate").data
          ∧ blk.gate.data <:+: (unknownOpMsg "FROB" "mygate").data)
        ∨ (∃ exp, OPS_ARITY.lookup st.op = some exp ∧ st.args.length ≠ exp
            ∧ unknownOpMsg "FROB" "mygate" = arityMsg st.op exp st.args.length
            ∧ st.op.data <+: (unknownOpMsg "FROB" "mygate").data) :=
  ⟨rfl, c8_semantic_error_payload (prog1 "mygate" "x" "FROB" [])
    (unknownOpMsg "FROB" "mygate") rfl⟩

/-! ### C9: unknown opcodes are rejected before emission -/

lemma semStmts_unknown_errors (g : String) :
    ∀ (sts : List Statement) (acc : List String),
      (∃ st ∈ sts, OPS_ARITY.lookup st.op = none) →
      ∃ e, semStmts g sts acc = .error e := by
  intro sts
  induction sts with
  | nil => intro acc h; simp at h
  | cons st rest ih =>
    intro acc h
    cases hlk : OPS_ARITY.lookup st.op with
    | none => exact ⟨unknownOpMsg st.op g, by rw [semStmts]; simp only [hlk]⟩
    | some exp =>
      by_cases harg : st.args.length ≠ exp
      · exact ⟨arityMsg st.op exp st.args.length, by
          rw [semStmts]; simp only [hlk]; rw [if_pos harg]⟩
      · obtain ⟨st2, hmem, hnone⟩ := h
        rcases List.mem_cons.mp hmem with ht | hmem2
        · subst ht; exact absurd hlk (by simp [hnone])
        · obtain ⟨e, he⟩ := ih _ ⟨st2, hmem2, hnone⟩
          exact ⟨e, by rw [semStmts]; simp only [hlk]; rw [if_neg harg]; exact he⟩

lemma semBlocks_unknown_errors :
    ∀ (bs : List Block) (acc : List String),
      (∃ blk ∈ bs, ∃ st ∈ blk.statements, OPS_ARITY.lookup st.op = none) →
      ∃ e, semBlocks bs acc = .error e := by
  intro bs
  induction bs with
  | nil => intro acc h; simp at h
  | cons blk rest ih =>
    intro acc h
    cases hsb : semStmts blk.gate blk.statements acc with
    | error e0 => exact ⟨e0, by rw [semBlocks, hsb]⟩
    | ok acc2 =>
      obtain ⟨blk2, hb, hrest⟩ := h
      rcases List.mem_cons.mp hb with hbeq | hb2
      · rw [hbeq] at hrest
        obtain ⟨e, he⟩ := semStmts_unknown_errors blk.gate blk.statements acc hrest
        rw [he] at hsb
        exact absurd hsb (by simp)
      · obtain ⟨e, he⟩ := ih acc2 ⟨blk2, hb2, hrest⟩
        exact ⟨e, by rw [semBlocks, hsb]; exact he⟩

/-- Claim C9: a program containing a statement with an unknown opcode
name makes the validator raise a semantic error, so the pipeline stops
with that error and no target text is produced (`compileAst` runs
`semantic` to completion strictly before `emit`, by definition). -/
theorem c9_unknown_op_rejected_before_emit (p : Program) (h : hasUnknownOp p) :
    ∃ e, semantic p = .error e ∧ compileAst p = .error (.sem e) := by
  obtain ⟨e, he⟩ := semBlocks_unknown_errors p.blocks [] h
  have hsem : semantic p = .error e := (semantic_error_iff p e).mpr he
  exact ⟨e, hsem, by rw [compileAst, hsem]⟩

/-- Witness for C9 at a concrete input: a program using the unknown
opcode `FROB` is rejected by the validator and produces no text. -/
theorem c9_unknown_op_rejected_before_emit_witness :
    hasUnknownOp (prog1 "g" "x" "FROB" [])
    ∧ ∃ e, semantic (prog1 "g" "x" "FROB" []) = .error e
        ∧ compileAst (prog1 "g" "x" "FROB" []) = .error (.sem e) :=
  ⟨by unfold hasUnknownOp; decide,
    c9_unknown_op_rejected_before_emit (prog1 "g" "x" "FROB" []) (by unfold hasUnknownOp; decide)⟩

/-! ### C1: the symbol list of a valid program -/

lemma mem_stmtSyms (st : Statement) (s : String) :
    s ∈ stmtSyms st ↔ s = st.dest ∨ Arg.ident s ∈ st.args := by
  simp only [stmtSyms, List.mem_cons, List.mem_filterMap]
  constructor
  · rintro (h | ⟨a, ha, hm⟩)
    · exact Or.inl h
    · cases a with
      | num n => exact absurd hm (by simp)
      | ident t =>
        simp only [Option.some.injEq] at hm
        subst hm
        exact Or.inr ha
  · rintro (h | h)
    · exact Or.inl h
    · exact Or.inr ⟨Arg.ident s, h, rfl⟩

lemma foldl_argSyms_mem : ∀ (args : List Arg) (acc : List String) (s : String),
    s ∈ args.foldl argSyms acc ↔ s ∈ acc ∨ Arg.ident s ∈ args := by
  intro args
  induction args with
  | nil => intro acc s; simp
  | cons a args ih =>
    intro acc s
    rw [List.foldl_cons, ih]
    cases a with
    | num n => simp [argSyms]
    | ident t =>
      simp only [argSyms, List.mem_insert_iff, List.mem_cons, Arg.ident.injEq]
      tauto

lemma foldl_argSyms_nodup : ∀ (args : List Arg) (acc : List String),
    acc.Nodup → (args.foldl argSyms acc).Nodup := by
  intro args
  induction args with
  | nil => intro acc h; exact h
  | cons a args ih =>
    intro acc h
    rw [List.foldl_cons]
    apply ih
    cases a with
    | num n => exact h
    | ident t => exact h.insert

lemma semStmts_ok_payload (g : String) :
    ∀ (sts : List Statement) (acc out : List String),
      semStmts g sts acc = .ok out →
      (∀ s, s ∈ out ↔ s ∈ acc ∨ ∃ st ∈ sts, s ∈ stmtSyms st)
      ∧ (acc.Nodup → out.Nodup) := by
  intro sts
  induction sts with
  | nil =>
    intro acc out h
    rw [semStmts] at h
    have heq : acc = out := Except.ok.inj h
    subst heq
    exact ⟨fun s => by simp, fun h => h⟩
  | cons st rest ih =>
    intro acc out h
    rw [semStmts] at h
    cases hlk : OPS_ARITY.lookup st.op with
    | none =>
      simp only [hlk] at h
      exact absurd h (by simp)
    | some exp =>
      simp only [hlk] at h
      by_cases harg : st.args.length ≠ exp
      · rw [if_pos harg] at h
        exact absurd h (by simp)
      · rw [if_neg harg] at h
        obtain ⟨hmem, hnd⟩ := ih _ out h
        constructor
        · intro s
          have h1 := hmem s
          rw [foldl_argSyms_mem, List.mem_insert_iff] at h1
          rw [h1, List.exists_mem_cons_iff, mem_stmtSyms]
          tauto
        · intro hnd0
          exact hnd (foldl_argSyms_nodup _ _ hnd0.insert)

lemma semBlocks_ok_payload :
    ∀ (bs : List Block) (acc out : List String),
      semBlocks bs acc = .ok out →
      (∀ s, s ∈ out ↔ s ∈ acc ∨ ∃ blk ∈ bs, ∃ st ∈ blk.statements, s ∈ stmtSyms st)
      ∧ (acc.Nodup → out.Nodup) := by
  intro bs
  induction bs with
  | nil =>
    intro acc out h
    rw [semBlocks] at h
    have heq : acc = out := Except.ok.inj h
    subst heq
    exact ⟨fun s => by simp, fun h => h⟩
  | cons blk rest ih =>
    intro acc out h
    rw [semBlocks] at h
    cases hsb : semStmts blk.gate blk.statements acc with
    | error e0 =>
      rw [hsb] at h
      exact absurd h (by simp)
    | ok acc2 =>
      rw [hsb] at h
      obtain ⟨hmem2, hnd2⟩ := ih acc2 out h
      obtain ⟨hmem1, hnd1⟩ := semStmts_ok_payload blk.gate blk.statements acc acc2 hsb
      constructor
      · intro s
        rw [hmem2 s, hmem1 s, List.exists_mem_cons_iff]
        exact or_assoc
      · intro hnd0
        exact hnd2 (hnd1 hnd0)

/-- Claim C1: for every program that passes validation, the returned
symbol list is strictly (hence lexicographically, without duplicates)
sorted, and it contains exactly the identifiers that occur somewhere in
the program as a statement destination or as an identifier argument. -/
theorem c1_symbol_list (p : Program) (syms : List String) (h : semantic p = .ok syms) :
    List.Sorted (· < ·) syms ∧ syms.toFinset = specSymbols p := by
  rw [semantic] at h
  cases hsb : semBlocks p.blocks [] with
  | error e =>
    rw [hsb] at h
    exact absurd h (by simp [Except.map])
  | ok raw =>
    rw [hsb] at h
    simp only [Except.map] at h
    have hsort : List.insertionSort (fun a b => strLeB a b = true) raw = syms := Except.ok.inj h
    obtain ⟨hmem, hnd⟩ := semBlocks_ok_payload p.blocks [] raw hsb
    have hnodup : raw.Nodup := hnd List.nodup_nil
    have hperm : (List.insertionSort (fun a b => strLeB a b = true) raw).Perm raw :=
      List.perm_insertionSort _ raw
    have hsorted := List.sorted_insertionSort (fun a b => strLeB a b = true) raw
    rw [hsort] at hperm hsorted
    constructor
    · have hle : syms.Sorted (· ≤ ·) := hsorted.imp (fun hab => (strLeB_iff _ _).mp hab)
      have hnd2 : syms.Nodup := hperm.nodup_iff.mpr hnodup
      exact (hle.and hnd2).imp (fun hab => lt_of_le_of_ne hab.1 hab.2)
    · ext s
      rw [List.mem_toFinset, hperm.mem_iff, hmem s, specSymbols, List.mem_toFinset]
      simp [List.mem_flatMap]

/-- Witness for C1 at the specification's example program: the symbol
list is exactly `["x", "y"]`, sorted and duplicate-free. -/
theorem c1_symbol_list_witness :
    semantic exampleProg = .ok ["x", "y"]
    ∧ (List.Sorted (· < ·) ["x", "y"]
        ∧ (["x", "y"] : List String).toFinset = specSymbols exampleProg) :=
  ⟨rfl, c1_symbol_list exampleProg ["x", "y"] rfl⟩

/-! ### C10: JUMP_IF gate targets are treated as data symbols -/

lemma bssSection_contains (g : String) :
    ∀ syms : List String, g ∈ syms → (bssLine g).data <:+: (bssSection syms).data := by
  intro syms
  induction syms with
  | nil => intro h; exact absurd h (List.not_mem_nil g)
  | cons x rest ih =>
    intro h
    rcases List.mem_cons.mp h with heq | hmem
    · subst heq
      exact ⟨[], (bssSection rest).data, by
        rw [show bssSection (g :: rest) = bssLine g ++ bssSection rest from rfl]
        simp [String.data_append]⟩
    · obtain ⟨s, u, hsu⟩ := ih hmem
      refine ⟨(bssLine x).data ++ s, u, ?_⟩
      rw [show bssSection (x :: rest) = bssLine x ++ bssSection rest from rfl]
      simp only [String.data_append]
      rw [← hsu]
      simp [List.append_assoc]

lemma emit_isSome_eq (p : Program) (syms : List String) (h : (emit p syms).isSome = true) :
    ∃ body lbl2, emitBlocks p.blocks 0 = some (body, lbl2)
      ∧ emit p syms = some (emitHead ++ bssSection syms ++ emitTextPre ++ body ++ emitTail) := by
  cases heb : emitBlocks p.blocks 0 with
  | none => rw [emit, heb] at h; exact absurd h (by simp)
  | some r =>
    obtain ⟨body, lbl2⟩ := r
    refine ⟨body, lbl2, rfl, ?_⟩
    rw [emit]
    simp only [heb]

/-- Claim C10: the validator adds a JUMP_IF statement's gate-name
argument to the symbol table like any identifier argument, so the
emitter declares it as a zero-initialized 64-bit storage cell
(`resq 1` in the zero-initialized `.bss` section), while the emitted
jump instruction uses the same name as a code label. -/
theorem c10_jump_target_declared (p : Program) (blk : Block) (st : Statement)
    (a1 : Arg) (g : String) (syms : List String) (lbl : Nat)
    (hblk : blk ∈ p.blocks) (hst : st ∈ blk.statements)
    (hop : st.op = "JUMP_IF") (hargs : st.args = [a1, Arg.ident g])
    (hsem : semantic p = .ok syms)
    (hemit : (emit p syms).isSome = true) :
    g ∈ syms
    ∧ (bssLine g).data <:+: ((emit p syms).getD "").data
    ∧ emit_stmt st lbl = some ("    jne     " ++ g ++ "    ; JUMP_IF\n", lbl) := by
  have hg : g ∈ syms := by
    rw [semantic] at hsem
    cases hsb : semBlocks p.blocks [] with
    | error e => rw [hsb] at hsem; exact absurd hsem (by simp [Except.map])
    | ok raw =>
      rw [hsb] at hsem
      simp only [Except.map] at hsem
      have hsort : List.insertionSort (fun a b => strLeB a b = true) raw = syms :=
        Except.ok.inj hsem
      obtain ⟨hmem, _⟩ := semBlocks_ok_payload p.blocks [] raw hsb
      have hr : g ∈ raw := (hmem g).mpr (Or.inr ⟨blk, hblk, st, hst, by
        rw [mem_stmtSyms]
        exact Or.inr (by rw [hargs]; simp)⟩)
      rw [← hsort]
      exact ((List.perm_insertionSort _ raw).mem_iff).mpr hr
  refine ⟨hg, ?_, ?_⟩
  · obtain ⟨body, lbl2, heb, he⟩ := emit_isSome_eq p syms hemit
    rw [he, Option.getD_some]
    obtain ⟨s, u, hsu⟩ := bssSection_contains g syms hg
    refine ⟨emitHead.data ++ s, u ++ (emitTextPre.data ++ (body.data ++ emitTail.data)), ?_⟩
    simp only [String.data_append]
    rw [← hsu]
    simp [List.append_assoc]
  · obtain ⟨d2, op2, args2⟩ := st
    have h1 : op2 = "JUMP_IF" := hop
    have h2 : args2 = [a1, Arg.ident g] := hargs
    subst h1
    subst h2
    rfl

/-- Witness for C10 at the specification's COMPARE/JUMP_IF example:
`loopgate` ends up in the symbol list, is declared in the `.bss`
section, and the jump instruction targets it by name. -/
theorem c10_jump_target_declared_witness :
    (semantic exampleJump = .ok ["a", "b", "c", "loopgate"]
      ∧ (emit exampleJump ["a", "b", "c", "loopgate"]).isSome = true)
    ∧ ("loopgate" ∈ ["a", "b", "c", "loopgate"]
        ∧ (bssLine "loopgate").data
            <:+: ((emit exampleJump ["a", "b", "c", "loopgate"]).getD "").data
        ∧ emit_stmt ⟨"a", "JUMP_IF", [Arg.ident "b", Arg.ident "loopgate"]⟩ 0
            = some ("    jne     " ++ "loopgate" ++ "    ; JUMP_IF\n", 0)) :=
  ⟨⟨rfl, rfl⟩,
    c10_jump_target_declared exampleJump
      ⟨"g0", [⟨"a", "COMPARE", [Arg.ident "b", Arg.ident "c"]⟩,
        ⟨"a", "JUMP_IF", [Arg.ident "b", Arg.ident "loopgate"]⟩]⟩
      ⟨"a", "JUMP_IF", [Arg.ident "b", Arg.ident "loopgate"]⟩
      (Arg.ident "b") "loopgate" ["a", "b", "c", "loopgate"] 0
      (by decide) (by decide) rfl rfl rfl rfl⟩

/-! ### C3: LOOP label numbering -/

set_option maxHeartbeats 1000000 in
lemma emit_stmt_next_label (st : Statement) (lbl : Nat) (t : String) (lbl2 : Nat)
    (h : emit_stmt st lbl = some (t, lbl2)) :
    lbl2 = if st.op = "LOOP" then lbl + 1 else lbl := by
  by_cases hloop : st.op = "LOOP"
  · rw [if_pos hloop]
    rw [emit_stmt, hloop] at h
    simp only [String.reduceEq, reduceIte, or_self, false_or, or_false] at h
    split at h
    · simp only [Option.some.injEq, Prod.mk.injEq] at h
      exact h.2.symm
    · exact absurd h (by simp)
  · rw [if_neg hloop]
    rw [emit_stmt] at h
    by_cases h1 : st.op = "SET"
    · rw [if_pos h1] at h
      simp only [Option.some.injEq, Prod.mk.injEq] at h
      exact h.2.symm
    rw [if_neg h1] at h
    by_cases h2 : st.op = "ADD"
    · rw [if_pos h2] at h
      simp only [Option.some.injEq, Prod.mk.injEq] at h
      exact h.2.symm
    rw [if_neg h2] at h
    by_cases h3 : st.op = "SUB"
    · rw [if_pos h3] at h
      simp only [Option.some.injEq, Prod.mk.injEq] at h
      exact h.2.symm
    rw [if_neg h3] at h
    by_cases h4 : st.op = "MUL"
    · rw [if_pos h4] at h
      simp only [Option.some.injEq, Prod.mk.injEq] at h
      exact h.2.symm
    rw [if_neg h4] at h
    by_cases h5 : st.op = "DIV"
    · rw [if_pos h5] at h
      simp only [Option.some.injEq, Prod.mk.injEq] at h
      exact h.2.symm
    rw [if_neg h5] at h
    by_cases h6 : st.op = "AND" ∨ st.op = "OR" ∨ st.op = "XOR"
    · rw [if_pos h6] at h
      simp only [Option.some.injEq, Prod.mk.injEq] at h
      exact h.2.symm
    rw [if_neg h6] at h
    by_cases h7 : st.op = "NOT"
    · rw [if_pos h7] at h
      simp only [Option.some.injEq, Prod.mk.injEq] at h
      exact h.2.symm
    rw [if_neg h7] at h
    by_cases h8 : st.op = "SHIFT_LEFT"
    · rw [if_pos h8] at h
      simp only [Option.some.injEq, Prod.mk.injEq] at h
      exact h.2.symm
    rw [if_neg h8] at h
    by_cases h9 : st.op = "SHIFT_RIGHT"
    · rw [if_pos h9] at h
      simp only [Option.some.injEq, Prod.mk.injEq] at h
      exact h.2.symm
    rw [if_neg h9] at h
    by_cases h10 : st.op = "COMPARE"
    · rw [if_pos h10] at h
      simp only [Option.some.injEq, Prod.mk.injEq] at h
      exact h.2.symm
    rw [if_neg h10] at h
    by_cases h11 : st.op = "JUMP_IF"
    · rw [if_pos h11] at h
      split at h
      · exact absurd h (by simp)
      · simp only [Option.some.injEq, Prod.mk.injEq] at h
        exact h.2.symm
    rw [if_neg h11] at h
    by_cases h12 : st.op = "DISPLAY"
    · rw [if_pos h12] at h
      simp only [Option.some.injEq, Prod.mk.injEq] at h
      exact h.2.symm
    rw [if_neg h12] at h
    rw [if_neg hloop] at h
    exact absurd h (by simp)

lemma emitStmts_suffixes :
    ∀ (sts : List Statement) (lbl : Nat) (t : String) (lbl2 : Nat),
      emitStmts sts lbl = some (t, lbl2) →
      loopSuffixes sts lbl = List.range' lbl (loopCount sts) ∧ lbl2 = lbl + loopCount sts := by
  intro sts
  induction sts with
  | nil =>
    intro lbl t lbl2 h
    rw [emitStmts] at h
    simp only [Option.some.injEq, Prod.mk.injEq] at h
    refine ⟨rfl, ?_⟩
    rw [← h.2]
    simp [loopCount]
  | cons st rest ih =>
    intro lbl t lbl2 h
    rw [emitStmts] at h
    cases hes : emit_stmt st lbl with
    | none => rw [hes] at h; exact absurd h (by simp)
    | some r =>
      obtain ⟨t1, l1⟩ := r
      simp only [hes] at h
      cases hrest : emitStmts rest l1 with
      | none => rw [hrest] at h; exact absurd h (by simp)
      | some r2 =>
        obtain ⟨t2, l2⟩ := r2
        simp only [hrest, Option.some.injEq, Prod.mk.injEq] at h
        have hl2 : l2 = lbl2 := h.2
        have hnext := emit_stmt_next_label st lbl t1 l1 hes
        obtain ⟨ih1, ih2⟩ := ih l1 t2 l2 hrest
        by_cases hloop : st.op = "LOOP"
        · rw [if_pos hloop] at hnext
          subst hnext
          have hcnt : loopCount (st :: rest) = loopCount rest + 1 := by
            rw [loopCount, loopCount, List.filter_cons, if_pos (by simp [hloop])]
            simp
          constructor
          · rw [loopSuffixes]
            simp only [hes]
            rw [if_neg (by omega), ih1, hcnt, List.range'_succ]
            rfl
          · rw [hcnt]; omega
        · rw [if_neg hloop] at hnext
          subst hnext
          have hcnt : loopCount (st :: rest) = loopCount rest := by
            rw [loopCount, loopCount, List.filter_cons, if_neg (by simp [hloop])]
          constructor
          · simp [loopSuffixes, hes, ih1, hcnt]
          · rw [hcnt]; omega

lemma loopSuffixes_append :
    ∀ (sts1 sts2 : List Statement) (lbl : Nat) (t : String) (l1 : Nat),
      emitStmts sts1 lbl = some (t, l1) →
      loopSuffixes (sts1 ++ sts2) lbl = loopSuffixes sts1 lbl ++ loopSuffixes sts2 l1 := by
  intro sts1
  induction sts1 with
  | nil =>
    intro sts2 lbl t l1 h
    rw [emitStmts] at h
    simp only [Option.some.injEq, Prod.mk.injEq] at h
    rw [← h.2]
    simp [loopSuffixes]
  | cons st rest ih =>
    intro sts2 lbl t l1 h
    rw [emitStmts] at h
    cases hes : emit_stmt st lbl with
    | none => rw [hes] at h; exact absurd h (by simp)
    | some r =>
      obtain ⟨t1, lb1⟩ := r
      simp only [hes] at h
      cases hrest : emitStmts rest lb1 with
      | none => rw [hrest] at h; exact absurd h (by simp)
      | some r2 =>
        obtain ⟨t2, lb2⟩ := r2
        simp only [hrest, Option.some.injEq, Prod.mk.injEq] at h
        rw [← h.2]
        rw [List.cons_append, loopSuffixes, loopSuffixes]
        simp only [hes]
        rw [ih sts2 lb1 t2 lb2 hrest]
        simp [List.append_assoc]

lemma loopCount_append (a b : List Statement) :
    loopCount (a ++ b) = loopCount a + loopCount b := by
  simp [loopCount, List.filter_append]

lemma emitBlocks_suffixes :
    ∀ (bs : List Block) (lbl : Nat) (t : String) (lbl2 : Nat),
      emitBlocks bs lbl = some (t, lbl2) →
      loopSuffixes (bs.flatMap (·.statements)) lbl
          = List.range' lbl (loopCount (bs.flatMap (·.statements)))
      ∧ lbl2 = lbl + loopCount (bs.flatMap (·.statements)) := by
  intro bs
  induction bs with
  | nil =>
    intro lbl t lbl2 h
    rw [emitBlocks] at h
    simp only [Option.some.injEq, Prod.mk.injEq] at h
    refine ⟨rfl, ?_⟩
    rw [← h.2]
    simp [loopCount]
  | cons blk rest ih =>
    intro lbl t lbl2 h
    rw [emitBlocks] at h
    cases hes : emitStmts blk.statements lbl with
    | none => rw [hes] at h; exact absurd h (by simp)
    | some r =>
      obtain ⟨t1, l1⟩ := r
      simp only [hes] at h
      cases heb : emitBlocks rest l1 with
      | none => rw [heb] at h; exact absurd h (by simp)
      | some r2 =>
        obtain ⟨t2, l2⟩ := r2
        simp only [heb, Option.some.injEq, Prod.mk.injEq] at h
        have hl2 : l2 = lbl2 := h.2
        obtain ⟨e1, e2⟩ := emitStmts_suffixes blk.statements lbl t1 l1 hes
        obtain ⟨f1, f2⟩ := ih l1 t2 l2 heb
        rw [List.flatMap_cons, loopCount_append,
          loopSuffixes_append blk.statements (rest.flatMap (·.statements)) lbl t1 l1 hes,
          e1, f1]
        constructor
        · have hr := List.range'_append lbl (loopCount blk.statements)
            (loopCount (rest.flatMap (·.statements))) 1
          simp only [one_mul] at hr
          rw [e2, hr, Nat.add_comm (loopCount (rest.flatMap (·.statements)))]
        · omega

/-- Claim C3: within a single compilation every LOOP statement's
start/end labels carry a distinct numeric suffix — the suffixes consumed
over the whole program are exactly `0, 1, ..., k-1` in order, hence
duplicate-free — and `emit` starts its label counter at the fixed
initial value `0` on every call (the counter is local to `emit`), so
independent compilations of the same program number their labels
identically: the suffix sequence is a function of the program alone. -/
theorem c3_loop_labels (p : Program) (syms : List String)
    (hemit : (emit p syms).isSome = true) :
    loopSuffixes (progStmts p) 0 = List.range (loopCount (progStmts p))
    ∧ (loopSuffixes (progStmts p) 0).Nodup := by
  cases heb : emitBlocks p.blocks 0 with
  | none => rw [emit, heb] at hemit; exact absurd hemit (by simp)
  | some r =>
    obtain ⟨body, lbl2⟩ := r
    obtain ⟨h1, _⟩ := emitBlocks_suffixes p.blocks 0 body lbl2 heb
    have hr : loopSuffixes (progStmts p) 0 = List.range (loopCount (progStmts p)) := by
      rw [progStmts, h1, List.range_eq_range']
    exact ⟨hr, by rw [hr]; exact List.nodup_range _⟩

/-- Witness for C3 at a two-LOOP program: emission succeeds and the
label suffixes are exactly `[0, 1]`. -/
theorem c3_loop_labels_witness :
    (emit exampleLoops []).isSome = true
    ∧ (loopSuffixes (progStmts exampleLoops) 0 = List.range (loopCount (progStmts exampleLoops))
        ∧ (loopSuffixes (progStmts exampleLoops) 0).Nodup) :=
  ⟨rfl, c3_loop_labels exampleLoops [] rfl⟩

/-! ### C6: the lexer stops at the first unmatchable character -/

lemma mismatch_spec (c : Char) (h : mismatchC c = true) :
    isDigitC c = false ∧ isIdentStartC c = false ∧ punctTy c = none
    ∧ (c == '\n') = false ∧ isSkipC c = false := by
  simp only [mismatchC, Bool.and_eq_true, Bool.not_eq_true', Option.isNone_iff_eq_none] at h
  exact ⟨h.1.1.1.1, h.1.1.1.2, h.1.1.2, h.1.2, h.2⟩

lemma asciiDigit_isDigit {c : Char} (h : isAsciiDigitC c = true) : isDigitC c = true := by
  simp only [isAsciiDigitC, Bool.and_eq_true, decide_eq_true_eq] at h
  simp only [isDigitC, List.any_eq_true]
  refine ⟨(0x30, 0x3A), by decide, ?_⟩
  simp only [Bool.and_eq_true, decide_eq_true_eq]
  omega

lemma mismatch_not_identCont (c : Char) (h : mismatchC c = true) : isIdentContC c = false := by
  obtain ⟨h1, h2, _, _, _⟩ := mismatch_spec c h
  have h3 : isAsciiDigitC c = false := by
    cases ha : isAsciiDigitC c
    · rfl
    · rw [asciiDigit_isDigit ha] at h1
      exact nomatch h1
  simp [isIdentContC, h2, h3]

lemma not_nl_of_pred {P : Char → Bool} (hP : P '\n' = false) {x : Char} (h : P x = true) :
    (x == '\n') = false := by
  by_cases hx : x = '\n'
  · subst hx; rw [hP] at h; exact nomatch h
  · simp [hx]

lemma punct_not_nl {x : Char} {ty : String} (h : punctTy x = some ty) : (x == '\n') = false := by
  by_cases hx : x = '\n'
  · subst hx; rw [show punctTy '\n' = none from rfl] at h; exact nomatch h
  · simp [hx]

lemma takeWhile_append_not {p : Char → Bool} {c : Char} (hc : p c = false) :
    ∀ (l t : List Char), (l ++ c :: t).takeWhile p = l.takeWhile p := by
  intro l t
  induction l with
  | nil => simp [List.takeWhile_cons, hc]
  | cons a l ih =>
    rw [List.cons_append, List.takeWhile_cons, List.takeWhile_cons]
    cases hpa : p a <;> simp [ih]

lemma dropWhile_append_not {p : Char → Bool} {c : Char} (hc : p c = false) :
    ∀ (l t : List Char), (l ++ c :: t).dropWhile p = l.dropWhile p ++ c :: t := by
  intro l t
  induction l with
  | nil => simp [List.dropWhile_cons, hc]
  | cons a l ih =>
    rw [List.cons_append, List.dropWhile_cons, List.dropWhile_cons]
    cases hpa : p a <;> simp [ih]

lemma nlCount_append (a b : List Char) : nlCount (a ++ b) = nlCount a + nlCount b := by
  simp [nlCount, List.countP_append]

lemma nlCount_eq_zero {l : List Char} (h : ∀ x ∈ l, (x == '\n') = false) : nlCount l = 0 := by
  rw [nlCount, List.countP_eq_zero]
  intro a ha
  simp [h a ha]

lemma nlCount_all_nl {l : List Char} (h : ∀ x ∈ l, (x == '\n') = true) :
    nlCount l = l.length := by
  rw [nlCount, List.countP_eq_length]
  exact h

lemma lsAfter_append (a b : List Char) :
    ∀ (pos ls : Nat), lsAfter (a ++ b) pos ls = lsAfter b (pos + a.length) (lsAfter a pos ls) := by
  induction a with
  | nil => intro pos ls; simp [lsAfter]
  | cons x a ih =>
    intro pos ls
    rw [List.cons_append, lsAfter, lsAfter, ih]
    have : pos + 1 + a.length = pos + (x :: a).length := by simp; omega
    rw [this]

lemma lsAfter_no_nl {l : List Char} (h : ∀ x ∈ l, (x == '\n') = false) :
    ∀ (pos ls : Nat), lsAfter l pos ls = ls := by
  induction l with
  | nil => intro pos ls; rfl
  | cons x l ih =>
    intro pos ls
    rw [lsAfter]
    rw [h x (List.mem_cons_self x l)]
    exact ih (fun y hy => h y (List.mem_cons_of_mem x hy)) (pos + 1) ls

lemma lsAfter_all_nl {l : List Char} (h : ∀ x ∈ l, (x == '\n') = true) :
    ∀ (pos ls : Nat), lsAfter l pos ls = (if l.length = 0 then ls else pos + l.length) := by
  induction l with
  | nil => intro pos ls; rfl
  | cons x l ih =>
    intro pos ls
    rw [lsAfter]
    rw [h x (List.mem_cons_self x l), if_pos rfl]
    rw [ih (fun y hy => h y (List.mem_cons_of_mem x hy)) (pos + 1) (pos + 1)]
    by_cases hl : l.length = 0
    · simp [hl]
    · rw [if_neg hl, if_neg (by simp)]
      simp
      omega

lemma scan1_digit {c : Char} (hd : isDigitC c = true) (rest : List Char) :
    scan1 c rest = (.tok "NUMBER" (c :: rest.takeWhile isDigitC), rest.dropWhile isDigitC) := by
  simp [scan1, hd]

lemma scan1_identS {c : Char} (hd : isDigitC c = false) (hi : isIdentStartC c = true)
    (rest : List Char) :
    scan1 c rest = (.tok "IDENT" (c :: rest.takeWhile isIdentContC), rest.dropWhile isIdentContC) := by
  simp [scan1, hd, hi]

lemma scan1_punct {c : Char} {ty : String} (hd : isDigitC c = false) (hi : isIdentStartC c = false)
    (hp : punctTy c = some ty) (rest : List Char) :
    scan1 c rest = (.tok ty [c], rest) := by
  simp [scan1, hd, hi, hp]

lemma scan1_nl {c : Char} (hd : isDigitC c = false) (hi : isIdentStartC c = false)
    (hp : punctTy c = none) (hn : (c == '\n') = true) (rest : List Char) :
    scan1 c rest = (.nl (1 + (rest.takeWhile (· == '\n')).length), rest.dropWhile (· == '\n')) := by
  simp [scan1, hd, hi, hp, hn]

lemma scan1_skip {c : Char} (hd : isDigitC c = false) (hi : isIdentStartC c = false)
    (hp : punctTy c = none) (hn : (c == '\n') = false) (hs : isSkipC c = true)
    (rest : List Char) :
    scan1 c rest = (.skip (1 + (rest.takeWhile isSkipC).length), rest.dropWhile isSkipC) := by
  simp [scan1, hd, hi, hp, hn, hs]

lemma scan1_bad {c : Char} (h : mismatchC c = true) (rest : List Char) :
    scan1 c rest = (.bad c, rest) := by
  obtain ⟨h1, h2, h3, h4, h5⟩ := mismatch_spec c h
  simp [scan1, h1, h2, h3, h4, h5]

lemma no_nl_chunk {P : Char → Bool} (hP : P '\n' = false) {h0 : Char} (hh : P h0 = true)
    (l : List Char) : ∀ x ∈ h0 :: l.takeWhile P, (x == '\n') = false := by
  intro x hx
  rcases List.mem_cons.mp hx with h | h
  · subst h; exact not_nl_of_pred hP hh
  · exact not_nl_of_pred hP (List.mem_takeWhile_imp h)

lemma lexAux_split_nil (c : Char) (post : List Char) (f2 pos line ls : Nat)
    (hbad : mismatchC c = true) :
    lexAux (f2 + 1) (c :: post) pos line ls
      = ([], some ⟨c, line, (pos : Int) - (ls : Int) + 1⟩) := by
  simp only [lexAux, scan1_bad hbad]

lemma scan1_snd_le (c : Char) (rest : List Char) : (scan1 c rest).2.length ≤ rest.length := by
  rw [scan1]
  by_cases h1 : isDigitC c = true
  · simp only [h1, if_true]
    exact (List.dropWhile_sublist _).length_le
  · simp only [h1, if_false, Bool.false_eq_true]
    by_cases h2 : isIdentStartC c = true
    · simp only [h2, if_true]
      exact (List.dropWhile_sublist _).length_le
    · simp only [h2, if_false, Bool.false_eq_true]
      cases hp : punctTy c with
      | some ty => simp
      | none =>
        simp only []
        by_cases h3 : (c == '\n') = true
        · simp only [h3, if_true]
          exact (List.dropWhile_sublist _).length_le
        · simp only [h3, if_false, Bool.false_eq_true]
          by_cases h4 : isSkipC c = true
          · simp only [h4, if_true]
            exact (List.dropWhile_sublist _).length_le
          · simp only [h4, if_false, Bool.false_eq_true]
            exact le_rfl

lemma lexAux_split :
    ∀ (n : Nat) (pre : List Char), pre.length ≤ n →
      ∀ (c : Char) (post : List Char) (f pos line ls : Nat),
        (∀ x ∈ pre, mismatchC x = false) → mismatchC c = true → pre.length < f →
        lexAux f (pre ++ c :: post) pos line ls
          = ((lexAux f pre pos line ls).1,
              some ⟨c, line + nlCount pre,
                ((pos + pre.length : Nat) : Int) - (lsAfter pre pos ls : Int) + 1⟩)
        ∧ (lexAux f pre pos line ls).2 = none := by
  intro n
  induction n with
  | zero =>
    intro pre hlen c post f pos line ls hgood hbad hf
    have hpre : pre = [] := List.length_eq_zero.mp (Nat.le_zero.mp hlen)
    subst hpre
    obtain ⟨f2, rfl⟩ : ∃ f2, f = f2 + 1 := ⟨f - 1, by omega⟩
    constructor
    · rw [List.nil_append, lexAux_split_nil c post f2 pos line ls hbad]
      rw [show nlCount ([] : List Char) = 0 from rfl,
        show lsAfter ([] : List Char) pos ls = ls from rfl]
      simp [lexAux]
    · simp [lexAux]
  | succ n ihn =>
    intro pre hlen c post f pos line ls hgood hbad hf
    obtain ⟨f2, rfl⟩ : ∃ f2, f = f2 + 1 := ⟨f - 1, by omega⟩
    cases pre with
    | nil =>
      constructor
      · rw [List.nil_append, lexAux_split_nil c post f2 pos line ls hbad]
        rw [show nlCount ([] : List Char) = 0 from rfl,
          show lsAfter ([] : List Char) pos ls = ls from rfl]
        simp [lexAux]
      · simp [lexAux]
    | cons h0 pre2 =>
      have hg0 : mismatchC h0 = false := hgood h0 (List.mem_cons_self h0 pre2)
      have hgood2 : ∀ x ∈ pre2, mismatchC x = false :=
        fun x hx => hgood x (List.mem_cons_of_mem h0 hx)
      obtain ⟨hbd, hbi, hbp, hbn, hbs⟩ := mismatch_spec c hbad
      have hbic : isIdentContC c = false := mismatch_not_identCont c hbad
      have hlen2 : pre2.length ≤ n := by simp at hlen; omega
      have hf2 : pre2.length < f2 := by simp at hf; omega
      cases hd : isDigitC h0 with
      | true =>
        have htw := takeWhile_append_not hbd pre2 post
        have hdw := dropWhile_append_not hbd pre2 post
        have hchnl : ∀ x ∈ h0 :: pre2.takeWhile isDigitC, (x == '\n') = false :=
          no_nl_chunk (by decide) hd pre2
        have hcons : (h0 :: pre2.takeWhile isDigitC) ++ pre2.dropWhile isDigitC = h0 :: pre2 := by
          rw [List.cons_append, List.takeWhile_append_dropWhile]
        have hdwlen : (pre2.dropWhile isDigitC).length ≤ pre2.length :=
          (List.dropWhile_sublist _).length_le
        have hdwgood : ∀ x ∈ pre2.dropWhile isDigitC, mismatchC x = false :=
          fun x hx => hgood2 x ((List.dropWhile_sublist _).subset hx)
        obtain ⟨ih1, ih2⟩ := ihn (pre2.dropWhile isDigitC) (by omega) c post f2
          (pos + (h0 :: pre2.takeWhile isDigitC).length) line ls hdwgood hbad (by omega)
        have hA : line + nlCount (pre2.dropWhile isDigitC) = line + nlCount (h0 :: pre2) := by
          rw [← hcons, nlCount_append, nlCount_eq_zero hchnl]
          omega
        have hB : pos + (h0 :: pre2.takeWhile isDigitC).length
            + (pre2.dropWhile isDigitC).length = pos + (h0 :: pre2).length := by
          rw [← hcons, List.length_append]
          omega
        have hC : lsAfter (pre2.dropWhile isDigitC)
              (pos + (h0 :: pre2.takeWhile isDigitC).length) ls
            = lsAfter (h0 :: pre2) pos ls := by
          rw [← hcons, lsAfter_append, lsAfter_no_nl hchnl]
        constructor
        · rw [List.cons_append]
          simp only [lexAux, scan1_digit hd, htw, hdw]
          rw [ih1, hA, hB, hC]
        · simp only [lexAux, scan1_digit hd]
          exact ih2
      | false =>
      cases hi : isIdentStartC h0 with
      | true =>
        have hic : isIdentContC h0 = true := by simp [isIdentContC, hi]
        have htw := takeWhile_append_not hbic pre2 post
        have hdw := dropWhile_append_not hbic pre2 post
        have hchnl : ∀ x ∈ h0 :: pre2.takeWhile isIdentContC, (x == '\n') = false :=
          no_nl_chunk (by decide) hic pre2
        have hcons : (h0 :: pre2.takeWhile isIdentContC) ++ pre2.dropWhile isIdentContC
            = h0 :: pre2 := by
          rw [List.cons_append, List.takeWhile_append_dropWhile]
        have hdwlen : (pre2.dropWhile isIdentContC).length ≤ pre2.length :=
          (List.dropWhile_sublist _).length_le
        have hdwgood : ∀ x ∈ pre2.dropWhile isIdentContC, mismatchC x = false :=
          fun x hx => hgood2 x ((List.dropWhile_sublist _).subset hx)
        obtain ⟨ih1, ih2⟩ := ihn (pre2.dropWhile isIdentContC) (by omega) c post f2
          (pos + (h0 :: pre2.takeWhile isIdentContC).length) line ls hdwgood hbad (by omega)
        have hA : line + nlCount (pre2.dropWhile isIdentContC) = line + nlCount (h0 :: pre2) := by
          rw [← hcons, nlCount_append, nlCount_eq_zero hchnl]
          omega
        have hB : pos + (h0 :: pre2.takeWhile isIdentContC).length
            + (pre2.dropWhile isIdentContC).length = pos + (h0 :: pre2).length := by
          rw [← hcons, List.length_append]
          omega
        have hC : lsAfter (pre2.dropWhile isIdentContC)
              (pos + (h0 :: pre2.takeWhile isIdentContC).length) ls
            = lsAfter (h0 :: pre2) pos ls := by
          rw [← hcons, lsAfter_append, lsAfter_no_nl hchnl]
        constructor
        · rw [List.cons_append]
          simp only [lexAux, scan1_identS hd hi, htw, hdw]
          rw [ih1, hA, hB, hC]
        · simp only [lexAux, scan1_identS hd hi]
          exact ih2
      | false =>
      cases hp : punctTy h0 with
      | some ty =>
        have hnl : (h0 == '\n') = false := punct_not_nl hp
        have hchnl : ∀ x ∈ [h0], (x == '\n') = false := by
          intro x hx
          rw [List.mem_singleton.mp hx]
          exact hnl
        obtain ⟨ih1, ih2⟩ := ihn pre2 hlen2 c post f2
          (pos + ([h0] : List Char).length) line ls hgood2 hbad hf2
        have hA : line + nlCount pre2 = line + nlCount (h0 :: pre2) := by
          rw [show h0 :: pre2 = [h0] ++ pre2 from rfl, nlCount_append, nlCount_eq_zero hchnl]
          omega
        have hB : pos + ([h0] : List Char).length + pre2.length = pos + (h0 :: pre2).length := by
          simp
          omega
        have hC : lsAfter pre2 (pos + ([h0] : List Char).length) ls
            = lsAfter (h0 :: pre2) pos ls := by
          rw [show h0 :: pre2 = [h0] ++ pre2 from rfl, lsAfter_append, lsAfter_no_nl hchnl]
        constructor
        · rw [List.cons_append]
          simp only [lexAux, scan1_punct hd hi hp]
          rw [ih1, hA, hB, hC]
        · simp only [lexAux, scan1_punct hd hi hp]
          exact ih2
      | none =>
      cases hn : h0 == '\n' with
      | true =>
        have htw := takeWhile_append_not (p := (· == '\n')) hbn pre2 post
        have hdw := dropWhile_append_not (p := (· == '\n')) hbn pre2 post
        have hchnl : ∀ x ∈ h0 :: pre2.takeWhile (· == '\n'), (x == '\n') = true := by
          intro x hx
          rcases List.mem_cons.mp hx with h | h
          · subst h; exact hn
          · exact List.mem_takeWhile_imp (p := fun y => y == '\n') h
        have hcons : (h0 :: pre2.takeWhile (· == '\n')) ++ pre2.dropWhile (· == '\n')
            = h0 :: pre2 := by
          rw [List.cons_append, List.takeWhile_append_dropWhile]
        have hdwlen : (pre2.dropWhile (· == '\n')).length ≤ pre2.length :=
          (List.dropWhile_sublist _).length_le
        have hdwgood : ∀ x ∈ pre2.dropWhile (· == '\n'), mismatchC x = false :=
          fun x hx => hgood2 x ((List.dropWhile_sublist _).subset hx)
        obtain ⟨ih1, ih2⟩ := ihn (pre2.dropWhile (· == '\n')) (by omega) c post f2
          (pos + (1 + (pre2.takeWhile (· == '\n')).length))
          (line + (1 + (pre2.takeWhile (· == '\n')).length))
          (pos + (1 + (pre2.takeWhile (· == '\n')).length)) hdwgood hbad (by omega)
        have hA : line + (1 + (pre2.takeWhile (· == '\n')).length)
            + nlCount (pre2.dropWhile (· == '\n')) = line + nlCount (h0 :: pre2) := by
          rw [← hcons, nlCount_append, nlCount_all_nl hchnl]
          simp
          omega
        have hB : pos + (1 + (pre2.takeWhile (· == '\n')).length)
            + (pre2.dropWhile (· == '\n')).length = pos + (h0 :: pre2).length := by
          rw [← hcons, List.length_append]
          simp
          omega
        have hC : lsAfter (pre2.dropWhile (· == '\n'))
              (pos + (1 + (pre2.takeWhile (· == '\n')).length))
              (pos + (1 + (pre2.takeWhile (· == '\n')).length))
            = lsAfter (h0 :: pre2) pos ls := by
          rw [← hcons, lsAfter_append, lsAfter_all_nl hchnl,
            if_neg (by simp), show (h0 :: pre2.takeWhile (· == '\n')).length
              = 1 + (pre2.takeWhile (· == '\n')).length from by simp; omega]
        constructor
        · rw [List.cons_append]
          simp only [lexAux, scan1_nl hd hi hp hn, htw, hdw]
          rw [ih1, hA, hB, hC]
        · simp only [lexAux, scan1_nl hd hi hp hn]
          exact ih2
      | false =>
      cases hs : isSkipC h0 with
      | true =>
        have htw := takeWhile_append_not hbs pre2 post
        have hdw := dropWhile_append_not hbs pre2 post
        have hchnl : ∀ x ∈ h0 :: pre2.takeWhile isSkipC, (x == '\n') = false :=
          no_nl_chunk (by decide) hs pre2
        have hcons : (h0 :: pre2.takeWhile isSkipC) ++ pre2.dropWhile isSkipC = h0 :: pre2 := by
          rw [List.cons_append, List.takeWhile_append_dropWhile]
        have hdwlen : (pre2.dropWhile isSkipC).length ≤ pre2.length :=
          (List.dropWhile_sublist _).length_le
        have hdwgood : ∀ x ∈ pre2.dropWhile isSkipC, mismatchC x = false :=
          fun x hx => hgood2 x ((List.dropWhile_sublist _).subset hx)
        obtain ⟨ih1, ih2⟩ := ihn (pre2.dropWhile isSkipC) (by omega) c post f2
          (pos + (1 + (pre2.takeWhile isSkipC).length)) line ls hdwgood hbad (by omega)
        have hA : line + nlCount (pre2.dropWhile isSkipC) = line + nlCount (h0 :: pre2) := by
          rw [← hcons, nlCount_append, nlCount_eq_zero hchnl]
          omega
        have hB : pos + (1 + (pre2.takeWhile isSkipC).length)
            + (pre2.dropWhile isSkipC).length = pos + (h0 :: pre2).length := by
          rw [← hcons, List.length_append]
          simp
          omega
        have hC : lsAfter (pre2.dropWhile isSkipC)
              (pos + (1 + (pre2.takeWhile isSkipC).length)) ls
            = lsAfter (h0 :: pre2) pos ls := by
          rw [← hcons, lsAfter_append, lsAfter_no_nl hchnl,
            show (h0 :: pre2.takeWhile isSkipC).length
              = 1 + (pre2.takeWhile isSkipC).length from by simp; omega]
        constructor
        · rw [List.cons_append]
          simp only [lexAux, scan1_skip hd hi hp hn hs, htw, hdw]
          rw [ih1, hA, hB, hC]
        · simp only [lexAux, scan1_skip hd hi hp hn hs]
          exact ih2
      | false =>
        have hmm : mismatchC h0 = true := by
          simp [mismatchC, hd, hi, hp, hn, hs]
        rw [hg0] at hmm
        exact nomatch hmm

lemma lexAux_fuel :
    ∀ (n : Nat) (l : List Char), l.length ≤ n →
      ∀ (f1 f2 pos line ls : Nat), l.length < f1 → l.length < f2 →
        lexAux f1 l pos line ls = lexAux f2 l pos line ls := by
  intro n
  induction n with
  | zero =>
    intro l hlen f1 f2 pos line ls h1 h2
    have hl : l = [] := List.length_eq_zero.mp (Nat.le_zero.mp hlen)
    subst hl
    obtain ⟨g1, rfl⟩ : ∃ g, f1 = g + 1 := ⟨f1 - 1, by omega⟩
    obtain ⟨g2, rfl⟩ : ∃ g, f2 = g + 1 := ⟨f2 - 1, by omega⟩
    rfl
  | succ n ih =>
    intro l hlen f1 f2 pos line ls h1 h2
    cases l with
    | nil =>
      obtain ⟨g1, rfl⟩ : ∃ g, f1 = g + 1 := ⟨f1 - 1, by omega⟩
      obtain ⟨g2, rfl⟩ : ∃ g, f2 = g + 1 := ⟨f2 - 1, by omega⟩
      rfl
    | cons c rest =>
      obtain ⟨g1, rfl⟩ : ∃ g, f1 = g + 1 := ⟨f1 - 1, by omega⟩
      obtain ⟨g2, rfl⟩ : ∃ g, f2 = g + 1 := ⟨f2 - 1, by omega⟩
      simp only [List.length_cons] at hlen h1 h2
      cases hsc : scan1 c rest with
      | mk ch rest2 =>
        have hle2 : rest2.length ≤ rest.length := by
          have h := scan1_snd_le c rest
          rw [hsc] at h
          exact h
        cases ch with
        | tok ty chars =>
          simp only [lexAux, hsc]
          rw [ih rest2 (by omega) g1 g2 (pos + chars.length) line ls (by omega) (by omega)]
        | nl k =>
          simp only [lexAux, hsc]
          exact ih rest2 (by omega) g1 g2 (pos + k) (line + k) (pos + k) (by omega) (by omega)
        | skip k =>
          simp only [lexAux, hsc]
          exact ih rest2 (by omega) g1 g2 (pos + k) line ls (by omega) (by omega)
        | bad b =>
          simp only [lexAux, hsc]

lemma firstBad_spec :
    ∀ (l : List Char) (p : Nat), firstBad l = some p →
      (∀ x ∈ l.take p, mismatchC x = false)
      ∧ ∃ c, l[p]? = some c ∧ mismatchC c = true := by
  intro l
  induction l with
  | nil =>
    intro p hp
    exact nomatch hp
  | cons c rest ih =>
    intro p hp
    rw [firstBad] at hp
    cases hm : mismatchC c with
    | true =>
      rw [if_pos hm] at hp
      obtain rfl := Option.some_inj.mp hp
      refine ⟨?_, c, List.getElem?_cons_zero, hm⟩
      intro x hx
      simp at hx
    | false =>
      simp only [hm, Bool.false_eq_true, if_false] at hp
      obtain ⟨q, hq, rfl⟩ := Option.map_eq_some'.mp hp
      obtain ⟨h1, c2, h2, h3⟩ := ih q hq
      refine ⟨?_, c2, ?_, h3⟩
      · intro x hx
        rw [List.take_succ_cons] at hx
        rcases List.mem_cons.mp hx with h | h
        · subst h
          exact hm
        · exact h1 x h
      · rw [List.getElem?_cons_succ]
        exact h2

/-- C6: if the source text contains a character matched by no token pattern
(`firstBad` finds the first such character `c` at index `p`), then the lexer
yields exactly the tokens of the clean text before that character — which
itself lexes without error, so no token at or after the bad character is ever
produced — and halts with a lexical error whose reported line is the 1-based
line of the bad character (1 plus the newlines preceding it) and whose
reported column is its offset minus the current line start plus 1, exactly as
`col = mo.start() - line_start + 1` computes in `lex`. -/
theorem c6_lexical_error_position (src : String) (p : Nat) (c : Char)
    (hp : firstBad src.toList = some p) (hc : src.toList[p]? = some c) :
    mismatchC c = true
    ∧ lex src
      = ((lex (String.mk (src.toList.take p))).1,
          some ⟨c, 1 + nlCount (src.toList.take p),
            (p : Int) - (lsAfter (src.toList.take p) 0 0 : Int) + 1⟩)
    ∧ (lex (String.mk (src.toList.take p))).2 = none := by
  obtain ⟨hgood, c2, hc2, hbad⟩ := firstBad_spec src.toList p hp
  rw [hc] at hc2
  obtain rfl := Option.some_inj.mp hc2
  have hlt : p < src.toList.length := by
    by_contra hge
    rw [List.getElem?_eq_none (Nat.le_of_not_lt hge)] at hc
    exact nomatch hc
  have hlen_take : (src.toList.take p).length = p := by
    rw [List.length_take]
    omega
  have hgc : src.toList[p] = c := by
    have hg := List.getElem?_eq_getElem hlt
    rw [hc] at hg
    exact (Option.some_inj.mp hg).symm
  have hdec : src.toList = src.toList.take p ++ c :: src.toList.drop (p + 1) := by
    conv_lhs => rw [← List.take_append_drop p src.toList]
    rw [List.drop_eq_getElem_cons hlt, hgc]
  have hmk : (String.mk (src.toList.take p)).toList = src.toList.take p := rfl
  obtain ⟨hs1, hs2⟩ := lexAux_split (src.toList.take p).length (src.toList.take p) le_rfl c
      (src.toList.drop (p + 1)) (src.toList.length + 1) 0 1 0 hgood hbad
      (by rw [hlen_take]; omega)
  rw [← hdec] at hs1
  have hfuel : lexAux (src.toList.length + 1) (src.toList.take p) 0 1 0
      = lexAux ((src.toList.take p).length + 1) (src.toList.take p) 0 1 0 :=
    lexAux_fuel (src.toList.take p).length (src.toList.take p) le_rfl
      (src.toList.length + 1) ((src.toList.take p).length + 1) 0 1 0
      (by rw [hlen_take]; omega) (by omega)
  have hnum : ((0 + (src.toList.take p).length : Nat) : Int) = (p : Int) := by
    rw [Nat.zero_add, hlen_take]
  refine ⟨hbad, ?_, ?_⟩
  · simp only [lex, hmk]
    rw [hs1, hfuel, hnum]
  · simp only [lex, hmk]
    rw [← hfuel]
    exact hs2

/-- Instantiates C6 on the source "ab\ncd @x": the first bad character is
the '@' at index 6, on line 2 column 4. -/
theorem c6_lexical_error_position_witness :
    firstBad "ab\ncd @x".toList = some 6
    ∧ "ab\ncd @x".toList[6]? = some '@'
    ∧ (mismatchC '@' = true
      ∧ lex "ab\ncd @x"
        = ((lex (String.mk ("ab\ncd @x".toList.take 6))).1,
            some ⟨'@', 1 + nlCount ("ab\ncd @x".toList.take 6),
              (6 : Int) - (lsAfter ("ab\ncd @x".toList.take 6) 0 0 : Int) + 1⟩)
      ∧ (lex (String.mk ("ab\ncd @x".toList.take 6))).2 = none) :=
  ⟨by decide, by decide,
    c6_lexical_error_position "ab\ncd @x" 6 '@' (by decide) (by decide)⟩

end Celc
